import Mathlib

/-!
Shallow embedding of the tick-grid and amount-delta module (`src/lib.rs`).

Machine integers are modelled as `Nat` (for the unsigned `u128`/`U256`/`u64`
values) and `Int` (for the signed `i32` tick indices, using the truncating
division `Int.tdiv` / `Int.tmod` that matches Rust's `/` and `%` on signed
integers).  The 256-bit checked operations of the `ethnum::U256` type are
modelled with their exact Rust semantics: `checked_mul` fails on a product
that does not fit in 256 bits, while `checked_shl` fails only when the shift
amount is at least 256 and otherwise discards the shifted-out high bits.
A Rust panic (division of a `U256` by zero) is modelled as `none`.
-/

namespace RustStarter

abbrev ErrorCode := Nat

def ARITHMETIC_OVERFLOW : ErrorCode := 9003

def AMOUNT_EXCEEDS_MAX_U64 : ErrorCode := 9004

/-- Size bound of the 256-bit intermediate type `ethnum::U256`. -/
def U256_BOUND : Nat := 2 ^ 256

/-- Size bound of the `u64` output type. -/
def U64_BOUND : Nat := 2 ^ 64

/-- Size bound of the `u128` input type. -/
def U128_BOUND : Nat := 2 ^ 128

/-- `U256::checked_mul`: the product, or `none` when it does not fit in 256 bits. -/
def checked_mul (a b : Nat) : Option Nat :=
  if a * b < U256_BOUND then some (a * b) else none

/-- `U256::checked_shl`: `none` only when the shift amount is ≥ 256 (the bit
width); otherwise the shifted value with the high bits discarded, exactly as
in Rust, where `checked_shl` does not detect value overflow. -/
def checked_shl (a s : Nat) : Option Nat :=
  if 256 ≤ s then none else some (a * 2 ^ s % U256_BOUND)

/-- `order_prices` from `src/lib.rs`. -/
def order_prices (a b : Nat) : Nat × Nat :=
  if a < b then (a, b) else (b, a)

/-- `try_get_amount_delta` from `src/lib.rs`.  The outer `Option` models
panics: `none` means the Rust code panics (division of `U256` by zero);
`some` carries the `Result<u64, ErrorCode>` value. -/
def try_get_amount_delta (sqrt_price_1 sqrt_price_2 liquidity : Nat)
    (round_up : Bool) : Option (Except ErrorCode Nat) :=
  let p := order_prices sqrt_price_1 sqrt_price_2
  let sqrt_price_lower := p.1
  let sqrt_price_upper := p.2
  let sqrt_price_diff := sqrt_price_upper - sqrt_price_lower
  match checked_mul liquidity sqrt_price_diff with
  | none => some (Except.error ARITHMETIC_OVERFLOW)
  | some m =>
    match checked_shl m 64 with
    | none => some (Except.error ARITHMETIC_OVERFLOW)
    | some numerator =>
      match checked_mul sqrt_price_lower sqrt_price_upper with
      | none => some (Except.error ARITHMETIC_OVERFLOW)
      | some denominator =>
        if denominator = 0 then none
        else
          let quotient := numerator / denominator
          let remainder := numerator % denominator
          let result := if round_up && (remainder != 0) then quotient + 1 else quotient
          if result < U64_BOUND then some (Except.ok result)
          else some (Except.error AMOUNT_EXCEEDS_MAX_U64)

/-- The remainder of the internal division `numerator % denominator` performed
by `try_get_amount_delta`, reached through the same checked steps (`none` when
the code errors out before the division or would divide by zero). -/
def amount_delta_remainder (sqrt_price_1 sqrt_price_2 liquidity : Nat) : Option Nat :=
  let p := order_prices sqrt_price_1 sqrt_price_2
  match checked_mul liquidity (p.2 - p.1) with
  | none => none
  | some m =>
    match checked_shl m 64 with
    | none => none
    | some numerator =>
      match checked_mul p.1 p.2 with
      | none => none
      | some denominator =>
        if denominator = 0 then none else some (numerator % denominator)

/-- The mathematically exact amount delta described by the spec: the quotient
of `L * (max - min) * 2^64` by `min * max`, floored, or ceiled when
`round_up` is set (quotient plus one exactly when the remainder is nonzero).
Computed without any width bound, for comparison with the code. -/
def amount_delta_spec (sqrt_price_1 sqrt_price_2 liquidity : Nat)
    (round_up : Bool) : Nat :=
  if round_up &&
      (liquidity * (max sqrt_price_1 sqrt_price_2 - min sqrt_price_1 sqrt_price_2) * 2 ^ 64 %
        (min sqrt_price_1 sqrt_price_2 * max sqrt_price_1 sqrt_price_2) != 0) then
    liquidity * (max sqrt_price_1 sqrt_price_2 - min sqrt_price_1 sqrt_price_2) * 2 ^ 64 /
      (min sqrt_price_1 sqrt_price_2 * max sqrt_price_1 sqrt_price_2) + 1
  else
    liquidity * (max sqrt_price_1 sqrt_price_2 - min sqrt_price_1 sqrt_price_2) * 2 ^ 64 /
      (min sqrt_price_1 sqrt_price_2 * max sqrt_price_1 sqrt_price_2)

/-- The (possibly wrapped) 256-bit numerator actually computed by the code:
`liquidity * diff`, shifted left by 64 with the high bits discarded. -/
def amount_delta_num (sqrt_price_1 sqrt_price_2 liquidity : Nat) : Nat :=
  liquidity * (max sqrt_price_1 sqrt_price_2 - min sqrt_price_1 sqrt_price_2) * 2 ^ 64 %
    U256_BOUND

/-- The 256-bit denominator computed by the code: `lower * upper`. -/
def amount_delta_den (sqrt_price_1 sqrt_price_2 : Nat) : Nat :=
  min sqrt_price_1 sqrt_price_2 * max sqrt_price_1 sqrt_price_2

/-- The (pre-narrowing) rounded quotient computed by the code. -/
def amount_delta_result (sqrt_price_1 sqrt_price_2 liquidity : Nat)
    (round_up : Bool) : Nat :=
  if round_up &&
      (amount_delta_num sqrt_price_1 sqrt_price_2 liquidity %
        amount_delta_den sqrt_price_1 sqrt_price_2 != 0) then
    amount_delta_num sqrt_price_1 sqrt_price_2 liquidity /
      amount_delta_den sqrt_price_1 sqrt_price_2 + 1
  else
    amount_delta_num sqrt_price_1 sqrt_price_2 liquidity /
      amount_delta_den sqrt_price_1 sqrt_price_2

/-- Two's-complement wrap into the `i32` range `[-2^31, 2^31)`, the
release-mode semantics of an overflowing Rust `i32` addition (a debug build
panics instead; either way the program never produces the unbounded sum). -/
def wrap32 (x : Int) : Int :=
  (x + 2 ^ 31) % 2 ^ 32 - 2 ^ 31

/-- `get_initializable_tick_index` from `src/lib.rs`.  The `i32` tick index is
an `Int`, the `u16` tick spacing a `Nat` cast to `Int`; `/` and `%` of the
signed Rust arithmetic are the truncating `Int.tdiv` and `Int.tmod`.  For
arguments in the `i32`/`u16` ranges, the quotient, remainder and `result`
computations cannot overflow `i32`; the round-up addition
`result + tick_spacing_i32` can (for unaligned ticks within one spacing of
`i32::MAX`), so it is wrapped with `wrap32`. -/
def get_initializable_tick_index (tick_index : Int) (tick_spacing : Nat)
    (round_up : Option Bool) : Int :=
  let tick_spacing_i32 : Int := tick_spacing
  let remainder := Int.tmod tick_index tick_spacing_i32
  let result := Int.tdiv tick_index tick_spacing_i32 * tick_spacing_i32
  let should_round_up :=
    match round_up with
    | some b => b && decide (0 < remainder)
    | none => decide (Int.tdiv tick_spacing_i32 2 ≤ remainder)
  if should_round_up then wrap32 (result + tick_spacing_i32) else result

/-- `is_tick_initializable` from `src/lib.rs`. -/
def is_tick_initializable (tick_index : Int) (tick_spacing : Nat) : Bool :=
  decide (Int.tmod tick_index (tick_spacing : Int) = 0)

example : get_initializable_tick_index 23 10 none = 20 := by decide
example : get_initializable_tick_index 25 10 none = 30 := by decide
example : get_initializable_tick_index (-23) 10 (some true) = -20 := by decide
example : get_initializable_tick_index (-23) 10 (some false) = -20 := by decide
example : get_initializable_tick_index 7 1 none = 8 := by decide
example : is_tick_initializable 30 10 = true := by decide
example : is_tick_initializable 31 10 = false := by decide
example : try_get_amount_delta 0 1 1 false = none := by rfl
example : try_get_amount_delta (2 ^ 64) (2 ^ 65) 1 true = some (Except.ok 1) := by rfl
example : try_get_amount_delta (2 ^ 64) (2 ^ 65) 1 false = some (Except.ok 0) := by rfl
example : try_get_amount_delta (2 ^ 96) (2 ^ 97) (2 ^ 127) false = some (Except.ok 0) := by rfl

lemma order_prices_comm (a b : Nat) : order_prices a b = order_prices b a := by
  unfold order_prices
  rcases Nat.lt_trichotomy a b with h | h | h
  · rw [if_pos h, if_neg (by omega)]
  · subst h; simp
  · rw [if_neg (by omega), if_pos h]

lemma order_prices_eq (a b : Nat) : order_prices a b = (min a b, max a b) := by
  unfold order_prices
  rcases Nat.le_total a b with h | h
  · rw [Nat.min_eq_left h, Nat.max_eq_right h]
    split
    · rfl
    · have : a = b := by omega
      subst this; rfl
  · rw [Nat.min_eq_right h, Nat.max_eq_left h]
    split
    · exact absurd (by omega : a < a) (lt_irrefl a)
    · rfl

lemma tmod_neg_left (a b : Int) : Int.tmod (-a) b = -(Int.tmod a b) := by
  rw [Int.tmod_def, Int.tmod_def, Int.neg_tdiv]
  ring

lemma tmod_lower_bound (t : Int) {s : Int} (hs : 0 < s) : -s < Int.tmod t s := by
  rcases le_or_lt 0 t with h | h
  · have := Int.tmod_nonneg s h
    omega
  · have h1 : Int.tmod (-t) s < s := Int.tmod_lt_of_pos _ hs
    have h2 : Int.tmod (-t) s = -(Int.tmod t s) := tmod_neg_left t s
    omega

lemma tmod_nonpos_of_nonpos {t : Int} (s : Int) (ht : t ≤ 0) : Int.tmod t s ≤ 0 := by
  have h2 : Int.tmod (-t) s = -(Int.tmod t s) := tmod_neg_left t s
  have h := Int.tmod_nonneg s (by omega : (0 : Int) ≤ -t)
  omega

lemma gi_some_false (t : Int) (s : Nat) :
    get_initializable_tick_index t s (some false) = Int.tdiv t s * s := by
  simp [get_initializable_tick_index]

lemma gi_some_true (t : Int) (s : Nat) :
    get_initializable_tick_index t s (some true) =
      if 0 < Int.tmod t s then wrap32 (Int.tdiv t s * s + s)
      else Int.tdiv t s * s := by
  simp [get_initializable_tick_index]

lemma gi_none (t : Int) (s : Nat) :
    get_initializable_tick_index t s none =
      if Int.tdiv (s : Int) 2 ≤ Int.tmod t s then wrap32 (Int.tdiv t s * s + s)
      else Int.tdiv t s * s := by
  simp [get_initializable_tick_index]

lemma wrap32_mem (x : Int) : -(2 ^ 31) ≤ wrap32 x ∧ wrap32 x < 2 ^ 31 := by
  unfold wrap32
  have h1 : 0 ≤ (x + 2 ^ 31) % 2 ^ 32 := Int.emod_nonneg _ (by norm_num)
  have h2 : (x + 2 ^ 31) % 2 ^ 32 < 2 ^ 32 := Int.emod_lt_of_pos _ (by norm_num)
  omega

lemma wrap32_eq_of_mem {x : Int} (h1 : -(2 ^ 31) ≤ x) (h2 : x < 2 ^ 31) :
    wrap32 x = x := by
  unfold wrap32
  rw [Int.emod_eq_of_lt (by omega) (by omega)]
  omega

lemma wrap32_sub_dvd (x : Int) : ∃ k : Int, x - wrap32 x = 2 ^ 32 * k := by
  refine ⟨(x + 2 ^ 31) / 2 ^ 32, ?_⟩
  have h := Int.emod_def (x + 2 ^ 31) (2 ^ 32)
  unfold wrap32
  omega

lemma U128_mul_U128 : U128_BOUND * U128_BOUND = U256_BOUND := by
  unfold U128_BOUND U256_BOUND
  rw [← pow_add]

lemma try_get_amount_delta_eq (a b L : Nat) (r : Bool)
    (ha : a < U128_BOUND) (hb : b < U128_BOUND) (hL : L < U128_BOUND)
    (ha0 : 0 < a) (hb0 : 0 < b) :
    try_get_amount_delta a b L r =
      if amount_delta_result a b L r < U64_BOUND then
        some (Except.ok (amount_delta_result a b L r))
      else some (Except.error AMOUNT_EXCEEDS_MAX_U64) := by
  have hmax : max a b < U128_BOUND := max_lt ha hb
  have hmin : 0 < min a b := lt_min ha0 hb0
  have hdiff : max a b - min a b < U128_BOUND :=
    lt_of_le_of_lt (Nat.sub_le _ _) hmax
  have h1 : L * (max a b - min a b) < U256_BOUND :=
    U128_mul_U128 ▸ mul_lt_mul'' hL hdiff (Nat.zero_le _) (Nat.zero_le _)
  have h2 : min a b * max a b < U256_BOUND :=
    U128_mul_U128 ▸
      mul_lt_mul'' (lt_of_le_of_lt (min_le_left a b) ha) hmax
        (Nat.zero_le _) (Nat.zero_le _)
  have hmul1 : checked_mul L (max a b - min a b) = some (L * (max a b - min a b)) := by
    unfold checked_mul
    rw [if_pos h1]
  have hshl : checked_shl (L * (max a b - min a b)) 64 =
      some (L * (max a b - min a b) * 2 ^ 64 % U256_BOUND) := by
    unfold checked_shl
    rw [if_neg (by norm_num)]
  have hmul2 : checked_mul (min a b) (max a b) = some (min a b * max a b) := by
    unfold checked_mul
    rw [if_pos h2]
  have hd0 : ¬ (min a b * max a b = 0) := by
    have := Nat.mul_pos hmin (lt_of_lt_of_le ha0 (le_max_left a b))
    omega
  simp only [try_get_amount_delta, order_prices_eq, hmul1, hmul2, hshl]
  rw [if_neg hd0]
  simp only [amount_delta_result, amount_delta_num, amount_delta_den]

/-- C1: for nonzero `u128` square-root prices, any `u128` liquidity and any
rounding flag, when the intermediate product `L * (max - min) * 2^64` fits in
256 bits and the (floor or ceiling) quotient fits in `u64`,
`try_get_amount_delta` returns `Ok` of the integer quotient of
`L * (max - min) * 2^64` by `min * max`, floored when `round_up` is false and
ceiled (quotient plus one exactly when the remainder is nonzero) when
`round_up` is true. -/
theorem try_get_amount_delta_exact_quotient (a b L : Nat) (r : Bool)
    (ha : a < U128_BOUND) (hb : b < U128_BOUND) (hL : L < U128_BOUND)
    (ha0 : 0 < a) (hb0 : 0 < b)
    (hnov : L * (max a b - min a b) * 2 ^ 64 < U256_BOUND)
    (hfit : amount_delta_spec a b L r < U64_BOUND) :
    try_get_amount_delta a b L r = some (Except.ok (amount_delta_spec a b L r)) := by
  have hnum : amount_delta_num a b L = L * (max a b - min a b) * 2 ^ 64 := by
    unfold amount_delta_num
    exact Nat.mod_eq_of_lt hnov
  have hres : amount_delta_result a b L r = amount_delta_spec a b L r := by
    unfold amount_delta_result amount_delta_spec amount_delta_den
    rw [hnum]
  rw [try_get_amount_delta_eq a b L r ha hb hL ha0 hb0, hres, if_pos hfit]

theorem try_get_amount_delta_exact_quotient_witness :
    try_get_amount_delta (2 ^ 64) (2 ^ 65) 6 false =
      some (Except.ok (amount_delta_spec (2 ^ 64) (2 ^ 65) 6 false)) :=
  try_get_amount_delta_exact_quotient (2 ^ 64) (2 ^ 65) 6 false (by decide)
    (by decide) (by decide) (by decide) (by decide) (by decide) (by decide)

/-- C2: refuted on the code. With `liquidity = 2^127` and prices `2^96` and
`2^97` the numerator `liquidity * diff * 2^64 = 2^287` does not fit in 256
bits, yet `try_get_amount_delta` returns `Ok 0`: `U256::checked_shl` only
fails when the shift amount is at least 256, so the left shift by 64 silently
discards the high bits instead of signalling `ARITHMETIC_OVERFLOW`. -/
theorem try_get_amount_delta_shl_silent_wraparound :
    U256_BOUND ≤ 2 ^ 127 * (2 ^ 97 - 2 ^ 96) * 2 ^ 64 ∧
    try_get_amount_delta (2 ^ 96) (2 ^ 97) (2 ^ 127) false = some (Except.ok 0) ∧
    try_get_amount_delta (2 ^ 96) (2 ^ 97) (2 ^ 127) false ≠
      some (Except.error ARITHMETIC_OVERFLOW) := by
  refine ⟨by decide, rfl, fun h => ?_⟩
  have h0 : some (Except.ok 0) = some (Except.error ARITHMETIC_OVERFLOW) :=
    (show some (Except.ok 0) =
        try_get_amount_delta (2 ^ 96) (2 ^ 97) (2 ^ 127) false from rfl).trans h
  exact Except.noConfusion (Option.some.inj h0)

/-- C3: refuted as stated. At the input `(0, 1, 1, false)` the lower price is
zero, the denominator `lower * upper` is zero, and the `U256` division
panics (modelled as `none`): the function does not return a `Result` for
every `u128` input. -/
theorem try_get_amount_delta_zero_price_panics :
    try_get_amount_delta 0 1 1 false = none := by rfl

/-- C3 (amended): for every input whose two prices are nonzero `u128` values,
`try_get_amount_delta` terminates normally with an explicit `Result`: either
one of the two error codes or an `Ok` value that fits in `u64`; in particular
the internal division and remainder never divide by zero. -/
theorem try_get_amount_delta_total_nonzero (a b L : Nat) (r : Bool)
    (ha : a < U128_BOUND) (hb : b < U128_BOUND) (hL : L < U128_BOUND)
    (ha0 : 0 < a) (hb0 : 0 < b) :
    ∃ out, try_get_amount_delta a b L r = some out ∧
      (out = Except.error ARITHMETIC_OVERFLOW ∨
       out = Except.error AMOUNT_EXCEEDS_MAX_U64 ∨
       ∃ v, v < U64_BOUND ∧ out = Except.ok v) := by
  rw [try_get_amount_delta_eq a b L r ha hb hL ha0 hb0]
  split
  · next h =>
      exact ⟨Except.ok (amount_delta_result a b L r), rfl,
        Or.inr (Or.inr ⟨amount_delta_result a b L r, h, rfl⟩)⟩
  · next h =>
      exact ⟨Except.error AMOUNT_EXCEEDS_MAX_U64, rfl, Or.inr (Or.inl rfl)⟩

theorem try_get_amount_delta_total_nonzero_witness :
    ∃ out, try_get_amount_delta 3 5 7 true = some out ∧
      (out = Except.error ARITHMETIC_OVERFLOW ∨
       out = Except.error AMOUNT_EXCEEDS_MAX_U64 ∨
       ∃ v, v < U64_BOUND ∧ out = Except.ok v) :=
  try_get_amount_delta_total_nonzero 3 5 7 true (by decide) (by decide)
    (by decide) (by decide) (by decide)

/-- C6: `try_get_amount_delta` is order-independent in its two price
arguments: swapping them yields the identical result (same `Ok` value or same
error, and the same panic behaviour). -/
theorem try_get_amount_delta_price_order_independent (a b L : Nat) (r : Bool) :
    try_get_amount_delta a b L r = try_get_amount_delta b a L r := by
  unfold try_get_amount_delta
  rw [order_prices_comm]

/-- C8: refuted as stated for arbitrary `u128` prices. At the equal prices
`p = 0` the denominator is zero and the division panics (modelled as `none`)
instead of returning `Ok 0`. -/
theorem try_get_amount_delta_equal_prices_cex :
    try_get_amount_delta 0 0 5 true = none ∧
    try_get_amount_delta 0 0 5 true ≠ some (Except.ok 0) := by
  refine ⟨rfl, fun h => ?_⟩
  exact Option.noConfusion
    ((show (none : Option (Except ErrorCode Nat)) =
        try_get_amount_delta 0 0 5 true from rfl).trans h)

/-- C8 (amended): for every nonzero `u128` price `p`, every `u128` liquidity
and every rounding flag, `try_get_amount_delta p p L r = Ok 0`: equal prices
are not special-cased, the zero difference falls out of the general
formula. -/
theorem try_get_amount_delta_equal_prices (p L : Nat) (r : Bool)
    (hp : p < U128_BOUND) (hL : L < U128_BOUND) (hp0 : 0 < p) :
    try_get_amount_delta p p L r = some (Except.ok 0) := by
  rw [try_get_amount_delta_eq p p L r hp hp hL hp0 hp0]
  have h1 : amount_delta_num p p L = 0 := by
    unfold amount_delta_num
    simp
  have h2 : amount_delta_result p p L r = 0 := by
    unfold amount_delta_result
    rw [h1]
    simp
  rw [h2, if_pos (by decide : (0 : Nat) < U64_BOUND)]

theorem try_get_amount_delta_equal_prices_witness :
    try_get_amount_delta 7 7 5 true = some (Except.ok 0) :=
  try_get_amount_delta_equal_prices 7 5 true (by decide) (by decide) (by decide)

/-- C4: refuted as stated. At the negative unaligned tick `-23` with spacing
`10`, the `Some(false)` call returns the toward-zero base `-20`, which is
greater than the input tick, violating the claimed lower bound. -/
theorem get_initializable_tick_index_bounds_cex :
    Int.tmod (-23) 10 ≠ 0 ∧
    ¬ get_initializable_tick_index (-23) 10 (some false) ≤ (-23 : Int) := by
  decide

/-- C4 (amended): for every `i32` tick index and `u16` spacing `s > 0`:
aligned ticks are returned unchanged by both directed calls; `Some(false)`
returns the toward-zero base, at or below the input for nonnegative ticks but
strictly above it for negative unaligned ticks; and `Some(true)` rounds to a
tick at or above the input whenever the round-up sum `base + s` stays below
`2^31` (for unaligned ticks within one spacing of `i32::MAX` the `i32`
addition wraps instead and the program never produces `base + s`). -/
theorem get_initializable_tick_index_bounds (t : Int) (s : Nat) (hs : 0 < s)
    (hsu : s < 2 ^ 16) (htl : -(2 ^ 31) ≤ t) (hth : t < 2 ^ 31) :
    (Int.tmod t s ≠ 0 →
      (0 ≤ t → get_initializable_tick_index t s (some false) ≤ t) ∧
      (Int.tdiv t s * s + s < 2 ^ 31 →
        t ≤ get_initializable_tick_index t s (some true)) ∧
      (t < 0 → t < get_initializable_tick_index t s (some false))) ∧
    (Int.tmod t s = 0 →
      get_initializable_tick_index t s (some false) = t ∧
      get_initializable_tick_index t s (some true) = t) := by
  have hsi : (0 : Int) < (s : Int) := by exact_mod_cast hs
  have heq : (s : Int) * Int.tdiv t s + Int.tmod t s = t := Int.tdiv_add_tmod t s
  have hub : Int.tmod t s < s := Int.tmod_lt_of_pos t hsi
  have hlb : -(s : Int) < Int.tmod t s := tmod_lower_bound t hsi
  rw [gi_some_false, gi_some_true]
  constructor
  · intro hne
    refine ⟨?_, ?_, ?_⟩
    · intro ht
      have hnn : 0 ≤ Int.tmod t s := Int.tmod_nonneg (s : Int) ht
      rw [Int.mul_comm]
      linarith
    · intro hnov
      split
      · next h =>
          have htpos : 0 < t := by
            by_contra hle
            have hnp := tmod_nonpos_of_nonpos (s : Int) (by omega : t ≤ 0)
            omega
          have hq0 : 0 ≤ Int.tdiv t s := Int.tdiv_nonneg (by omega) (by omega)
          have hbase0 : 0 ≤ Int.tdiv t s * (s : Int) := mul_nonneg hq0 (by omega)
          rw [wrap32_eq_of_mem (by linarith) hnov]
          rw [Int.mul_comm]
          linarith
      · next h =>
          have hneg : Int.tmod t s < 0 := by omega
          rw [Int.mul_comm]
          linarith
    · intro ht
      have hnp : Int.tmod t s ≤ 0 := tmod_nonpos_of_nonpos (s : Int) (le_of_lt ht)
      have : Int.tmod t s < 0 := lt_of_le_of_ne hnp hne
      rw [Int.mul_comm]
      linarith
  · intro h0
    rw [h0]
    have hcond : ¬ (0 : Int) < 0 := lt_irrefl 0
    rw [if_neg hcond]
    constructor <;> (rw [Int.mul_comm]; linarith)

theorem get_initializable_tick_index_bounds_witness :
    (Int.tmod 23 10 ≠ 0 →
      (0 ≤ (23 : Int) → get_initializable_tick_index 23 10 (some false) ≤ 23) ∧
      (Int.tdiv 23 10 * 10 + 10 < 2 ^ 31 →
        (23 : Int) ≤ get_initializable_tick_index 23 10 (some true)) ∧
      ((23 : Int) < 0 → (23 : Int) < get_initializable_tick_index 23 10 (some false))) ∧
    (Int.tmod 23 10 = 0 →
      get_initializable_tick_index 23 10 (some false) = 23 ∧
      get_initializable_tick_index 23 10 (some true) = 23) :=
  get_initializable_tick_index_bounds 23 10 (by decide) (by decide) (by decide)
    (by decide)

/-- C5: refuted as stated. At spacing `1` every tick is divisible by the
spacing, so `is_tick_initializable 0 1` is true, yet the nearest-mode
resolver returns `1 ≠ 0`: its round-up test `0 ≥ 1 / 2 = 0` always fires. -/
theorem is_tick_initializable_iff_cex :
    is_tick_initializable 0 1 = true ∧ get_initializable_tick_index 0 1 none ≠ 0 := by
  decide

/-- C5 (amended): for every tick spacing `s ≥ 2`, `is_tick_initializable t s`
is true exactly when the nearest-mode resolver returns `t` unchanged.  (At
`s = 1` the equivalence fails: every tick is aligned but nearest mode always
rounds up.) -/
theorem is_tick_initializable_iff_fixed_point (t : Int) (s : Nat) (hs : 2 ≤ s) :
    is_tick_initializable t s = true ↔ get_initializable_tick_index t s none = t := by
  have hsi : (0 : Int) < (s : Int) := by exact_mod_cast Nat.lt_of_lt_of_le Nat.zero_lt_two hs
  have heq : (s : Int) * Int.tdiv t s + Int.tmod t s = t := Int.tdiv_add_tmod t s
  have hub : Int.tmod t s < s := Int.tmod_lt_of_pos t hsi
  have hhalf : 1 ≤ Int.tdiv (s : Int) 2 := by
    have hnat : 1 ≤ s / 2 := by omega
    have hcast : ((s / 2 : Nat) : Int) = Int.tdiv (s : Int) 2 := Int.ofNat_tdiv s 2
    omega
  have hhalf2 : (s : Int) ≤ 2 * Int.tdiv (s : Int) 2 + 1 := by
    have h1 : (2 : Int) * Int.tdiv (s : Int) 2 + Int.tmod (s : Int) 2 = s :=
      Int.tdiv_add_tmod (s : Int) 2
    have h2 : Int.tmod (s : Int) 2 < 2 := Int.tmod_lt_of_pos _ (by norm_num)
    omega
  rw [gi_none]
  unfold is_tick_initializable
  simp only [decide_eq_true_eq]
  constructor
  · intro h0
    rw [if_neg (by omega)]
    rw [Int.mul_comm]
    linarith
  · intro hg
    by_contra hne
    revert hg
    split
    · next h =>
        intro hg
        have hrpos : 0 < Int.tmod t s := by omega
        have htpos : 0 < t := by
          by_contra hle
          have hnp := tmod_nonpos_of_nonpos (s : Int) (by omega : t ≤ 0)
          omega
        have hq0 : 0 ≤ Int.tdiv t s := Int.tdiv_nonneg (by omega) (by omega)
        have hbase0 : 0 ≤ (s : Int) * Int.tdiv t s := mul_nonneg (by omega) hq0
        have htge : Int.tmod t s ≤ t := by linarith
        obtain ⟨k, hk⟩ := wrap32_sub_dvd (Int.tdiv t (s : Int) * (s : Int) + (s : Int))
        rw [hg] at hk
        rw [Int.mul_comm (Int.tdiv t (s : Int)) (s : Int)] at hk
        have hsr : (s : Int) - Int.tmod t s = 2 ^ 32 * k := by linarith
        have hk1 : 1 ≤ k := by omega
        have hs2 : (s : Int) ≤ 2 * Int.tmod t s + 1 := by omega
        have hw := wrap32_mem (Int.tdiv t (s : Int) * (s : Int) + (s : Int))
        rw [hg] at hw
        obtain ⟨hw1, hw2⟩ := hw
        omega
    · next h =>
        intro hg
        rw [Int.mul_comm] at hg
        have h0 : Int.tmod t s = 0 := by linarith
        exact hne h0

theorem is_tick_initializable_iff_fixed_point_witness :
    is_tick_initializable 30 10 = true ↔
      get_initializable_tick_index 30 10 none = 30 :=
  is_tick_initializable_iff_fixed_point 30 10 (by decide)

/-- C9: refuted as stated at the top of the `i32` range. At
`t = 2147483647 = i32::MAX`, `s = 10` the remainder `7` meets the threshold
`5`, but the round-up sum `base + s = 2147483650` overflows `i32` and the
program wraps it to `-2147483646`, so nearest mode does not return
`base + s` there. -/
theorem get_initializable_tick_index_nearest_mode_cex :
    Int.tdiv ((10 : Nat) : Int) 2 ≤ Int.tmod 2147483647 10 ∧
    get_initializable_tick_index 2147483647 10 none ≠
      Int.tdiv 2147483647 10 * 10 + 10 ∧
    get_initializable_tick_index 2147483647 10 none = -2147483646 := by
  decide

/-- C9 (amended): in nearest mode (`round_up = None`) the resolver rounds up
to `base + s` exactly when the truncating remainder satisfies
`tmod t s ≥ s / 2` (with the spacing integer-divided), and otherwise returns
`base = (t / s) * s`, provided the round-up sum `base + s` stays below `2^31`
(for unaligned ticks in the top bucket of the `i32` range the addition wraps
instead); in particular `23 ↦ 20`, `25 ↦ 30` at spacing `10`, and
`get_initializable_tick_index (-23) 10 (Some true) = -20`. -/
theorem get_initializable_tick_index_nearest_mode (t : Int) (s : Nat)
    (hs : 0 < s) (htl : -(2 ^ 31) ≤ t)
    (hnov : Int.tdiv t s * s + s < 2 ^ 31) :
    (get_initializable_tick_index t s none =
      if Int.tdiv (s : Int) 2 ≤ Int.tmod t s then Int.tdiv t s * s + s
      else Int.tdiv t s * s) ∧
    get_initializable_tick_index 23 10 none = 20 ∧
    get_initializable_tick_index 25 10 none = 30 ∧
    get_initializable_tick_index (-23) 10 (some true) = -20 := by
  refine ⟨?_, by decide, by decide, by decide⟩
  have hsi : (0 : Int) < (s : Int) := by exact_mod_cast hs
  rw [gi_none]
  split
  · next h =>
      apply wrap32_eq_of_mem ?_ hnov
      rcases le_or_lt 0 t with ht | ht
      · have hq0 : 0 ≤ Int.tdiv t s := Int.tdiv_nonneg ht (by omega)
        have hbase0 : 0 ≤ Int.tdiv t s * (s : Int) := mul_nonneg hq0 (by omega)
        linarith
      · have heq : (s : Int) * Int.tdiv t s + Int.tmod t s = t := Int.tdiv_add_tmod t s
        have hnp : Int.tmod t s ≤ 0 := tmod_nonpos_of_nonpos (s : Int) (le_of_lt ht)
        rw [Int.mul_comm]
        linarith
  · next h => rfl

theorem get_initializable_tick_index_nearest_mode_witness :
    (get_initializable_tick_index 25 10 none =
      if Int.tdiv ((10 : Nat) : Int) 2 ≤ Int.tmod 25 10 then Int.tdiv 25 10 * 10 + 10
      else Int.tdiv 25 10 * 10) ∧
    get_initializable_tick_index 23 10 none = 20 ∧
    get_initializable_tick_index 25 10 none = 30 ∧
    get_initializable_tick_index (-23) 10 (some true) = -20 :=
  get_initializable_tick_index_nearest_mode 25 10 (by decide) (by decide) (by decide)

/-- C10: refuted as stated at `t = i32::MAX`. With spacing `1` the round-up
branch always fires, but at the top of the range the sum `t + 1` overflows
`i32` and the program wraps it to `i32::MIN = -2147483648`, so it does not
return `t + 1` for every tick index. -/
theorem get_initializable_tick_index_spacing_one_cex :
    get_initializable_tick_index 2147483647 1 none = -2147483648 ∧
    get_initializable_tick_index 2147483647 1 none ≠ 2147483647 + 1 := by
  decide

/-- C10 (amended): at tick spacing `1` the nearest-mode resolver returns
`t + 1` for every `i32` tick `t` strictly below `i32::MAX`: the remainder is
always zero and the round-up test `0 ≥ 1 / 2 = 0` always fires, so an
aligned tick is never returned unchanged; at `t = i32::MAX` itself the
incremented value wraps to `i32::MIN` instead of `t + 1`. -/
theorem get_initializable_tick_index_spacing_one (t : Int)
    (htl : -(2 ^ 31) ≤ t) (hth : t < 2 ^ 31 - 1) :
    get_initializable_tick_index t 1 none = t + 1 := by
  have h : Int.tmod t 1 = 0 := Int.tmod_one t
  rw [gi_none]
  simp only [Nat.cast_one]
  rw [h, if_pos (by decide)]
  simp only [Int.tdiv_one, mul_one]
  exact wrap32_eq_of_mem (by omega) (by omega)

theorem get_initializable_tick_index_spacing_one_witness :
    get_initializable_tick_index 7 1 none = 7 + 1 :=
  get_initializable_tick_index_spacing_one 7 (by decide) (by decide)

/-- C7: when both the round-up and the round-down call succeed with `Ok`
values, the round-up value dominates the round-down value, with equality
exactly when the internal division of numerator by denominator is exact
(remainder zero). -/
theorem try_get_amount_delta_round_up_dominates (a b L u v : Nat)
    (hu : try_get_amount_delta a b L true = some (Except.ok u))
    (hv : try_get_amount_delta a b L false = some (Except.ok v)) :
    v ≤ u ∧ (u = v ↔ amount_delta_remainder a b L = some 0) := by
  simp only [try_get_amount_delta] at hu hv
  simp only [amount_delta_remainder]
  rcases h1 : checked_mul L ((order_prices a b).2 - (order_prices a b).1) with _ | m
  · rw [h1] at hu
    simp at hu
  · rw [h1] at hu hv
    simp only [] at hu hv
    rcases h2 : checked_shl m 64 with _ | numerator
    · rw [h2] at hu
      simp at hu
    · rw [h2] at hu hv
      simp only [] at hu hv
      rcases h3 : checked_mul (order_prices a b).1 (order_prices a b).2 with _ | d
      · rw [h3] at hu
        simp at hu
      · rw [h3] at hu hv
        simp only [] at hu hv
        by_cases hd : d = 0
        · rw [if_pos hd] at hu
          simp at hu
        · rw [if_neg hd] at hu hv
          simp only []
          rw [h2]
          simp only []
          rw [if_neg hd]
          simp only [Option.some.injEq]
          simp only [Bool.true_and] at hu
          simp only [Bool.false_and] at hv
          simp only [Bool.false_eq_true, if_false] at hv
          split at hv
          · rename_i hvlt
            simp only [Option.some.injEq, Except.ok.injEq] at hv
            by_cases hr : numerator % d = 0
            · have hb0 : (numerator % d != 0) = false := by
                simp [hr]
              rw [hb0] at hu
              simp only [Bool.false_eq_true, if_false] at hu
              split at hu
              · rename_i hult
                simp only [Option.some.injEq, Except.ok.injEq] at hu
                subst hu
                subst hv
                exact ⟨le_refl _, by simp [hr]⟩
              · rename_i hnlt
                exact absurd hvlt hnlt
            · have hb1 : (numerator % d != 0) = true := by
                simpa using hr
              rw [hb1] at hu
              simp only [if_true] at hu
              split at hu
              · rename_i hult
                simp only [Option.some.injEq, Except.ok.injEq] at hu
                subst hu
                subst hv
                refine ⟨by omega, ?_⟩
                constructor
                · intro h
                  omega
                · intro h
                  exact absurd h hr
              · rename_i hnlt
                simp at hu
          · rename_i hvnlt
            simp at hv

theorem try_get_amount_delta_round_up_dominates_witness :
    (0 : Nat) ≤ 1 ∧
      ((1 : Nat) = 0 ↔ amount_delta_remainder (2 ^ 64) (2 ^ 65) 1 = some 0) :=
  try_get_amount_delta_round_up_dominates (2 ^ 64) (2 ^ 65) 1 1 0 (by rfl) (by rfl)

end RustStarter
